import Mathlib

/-!
Shallow embedding of the consent-management layer of the `ignite-metrics`
repository (`src/CountlyMetrics.ts`, class `MetricsProvider`), together
with theorems about its consent bookkeeping, persistence mirroring and
session guards.

The wrapped analytics service and the storage provider are external
collaborators.  Calls issued to them are recorded in an explicit event
log (`Call`), and the optional storage provider is modelled as an
`Option (List String)`: `none` when absent (or `null`), `some l` when
present with stored contents `l`.  The in-memory consent ledger
(a JavaScript `Set`) is modelled as an insertion-ordered duplicate-free
`List String`.
-/

namespace MetricsProvider

/-- JavaScript `Set.prototype.add`: appends the element if it is not
already present (JS sets iterate in insertion order). -/
def setAdd (s : List String) (x : String) : List String :=
  if x ∈ s then s else s ++ [x]

/-- JavaScript `Set.prototype.delete`: removes the element, keeping the
relative order of the remaining elements. -/
def setDelete (s : List String) (x : String) : List String :=
  s.filter (fun y => y != x)

/-- One call issued to an external collaborator: `add_consent`,
`remove_consent(·, removeDescendants)`, `begin_session`, `end_session`
on the metrics service, or `setStore` on the storage provider. -/
inductive Call where
  | addConsentCall (consent : List String)
  | removeConsentCall (consent : List String) (removeDescendants : Bool)
  | beginSessionCall (noHeartBeat force : Bool)
  | endSessionCall (force : Bool)
  | setStoreCall (categories : List String)
deriving DecidableEq, Repr

/-- True for the consent calls forwarded to the analytics service
(`add_consent` / `remove_consent`). -/
def isConsentCall : Call → Bool
  | .addConsentCall _ => true
  | .removeConsentCall _ _ => true
  | _ => false

/-- True for writes to the storage provider (`setStore`). -/
def isStoreCall : Call → Bool
  | .setStoreCall _ => true
  | _ => false

/-- True for `begin_session` calls. -/
def isBeginCall : Call → Bool
  | .beginSessionCall _ _ => true
  | _ => false

/-- The category names a call forwards to the analytics service's
`add_consent` / `remove_consent`; empty for every other kind of call. -/
def callNames : Call → List String
  | .addConsentCall consent => consent
  | .removeConsentCall consent _ => consent
  | _ => []

/-- The mutable fields of `MetricsProvider` relevant to consent and
sessions: `_consentGranted` (a JS `Set`, kept in insertion order),
`sessionStarted`, `initDone`, and the optional storage provider with its
current stored contents. -/
structure MetricsState where
  consentGranted : List String
  sessionStarted : Bool
  initDone : Bool
  storage : Option (List String)
deriving DecidableEq, Repr

/-- `mapAllEvents` from the source: `{...eventMap, all: Object.values(eventMap).flat()}`.
A record is modelled as an association list in key-insertion order; when
the input already has an `all` key, JavaScript keeps its original
position and overwrites its value, otherwise `all` is appended last. -/
def mapAllEvents (eventMap : List (String × List String)) : List (String × List String) :=
  let allFlags := (eventMap.map Prod.snd).flatten
  if eventMap.any (fun p => p.1 == "all") then
    eventMap.map (fun p => if p.1 == "all" then ("all", allFlags) else p)
  else
    eventMap ++ [("all", allFlags)]

/-- The `groupedFeatures` field initializer: `mapAllEvents` applied to the
five literal categories of the source. -/
def groupedFeatures : List (String × List String) :=
  mapAllEvents
    [("minimal", ["sessions", "views", "events"]),
     ("performance", ["crashes", "apm"]),
     ("ux", ["scrolls", "clicks", "forms"]),
     ("feedback", ["star-rating", "feedback"]),
     ("location", ["location"])]

/-- `Object.keys(this.groupedFeatures)` in key-insertion order. -/
def catalogKeys : List String :=
  groupedFeatures.map Prod.fst

/-- Key lookup in the grouped-features record (`this.groupedFeatures[consent]`,
guarded by `consent in this.groupedFeatures`). -/
def lookupGroup (name : String) : Option (List String) :=
  (groupedFeatures.find? (fun p => p.1 == name)).map Prod.snd

/-- `checkConsent`: if the argument is a key of the grouped-features
record, `every` member flag is checked against the service's
`check_consent`; else the argument is delegated directly.  The service's
`check_consent` is an oracle `String → Bool`. -/
def checkConsent (check_consent : String → Bool) (consent : String) : Bool :=
  match lookupGroup consent with
  | some flags => flags.all check_consent
  | none => check_consent consent

/-- Private `setConsentStore`: writes `Array.from(this._consentGranted)`
to the storage provider only if a provider is present and `initDone`. -/
def setConsentStore (s : MetricsState) : MetricsState × List Call :=
  if s.storage.isSome && s.initDone then
    ({ s with storage := some s.consentGranted }, [Call.setStoreCall s.consentGranted])
  else
    (s, [])

/-- Private `getConsentStore`: `this.storageProvider?.getStore() ?? []`. -/
def getConsentStore (s : MetricsState) : List String :=
  s.storage.getD []

/-- `addConsent`: each given category is added to the ledger set, one
`add_consent` call is issued with the given list, then the store is
mirrored.  (A single non-array argument is wrapped into a one-element
list by the source before this point.) -/
def addConsent (s : MetricsState) (consent : List String) : MetricsState × List Call :=
  let s1 := { s with consentGranted := consent.foldl setAdd s.consentGranted }
  let r := setConsentStore s1
  (r.1, Call.addConsentCall consent :: r.2)

/-- `removeConsent`: each given category is deleted from the ledger set,
one `remove_consent` call is issued with the given list and the
remove-descendants flag hard-coded `true`, then the store is mirrored. -/
def removeConsent (s : MetricsState) (consent : List String) : MetricsState × List Call :=
  let s1 := { s with consentGranted := consent.foldl setDelete s.consentGranted }
  let r := setConsentStore s1
  (r.1, Call.removeConsentCall consent true :: r.2)

/-- The body of `updateConsent`'s `forEach` over `Object.keys(groupedFeatures)`:
`addConsent(groupName)` when the group name is in the requested set, else
`removeConsent(groupName)`; the accumulated call log is threaded through. -/
def updateStep (consent : List String) (acc : MetricsState × List Call) (groupName : String) :
    MetricsState × List Call :=
  let r := if groupName ∈ consent then addConsent acc.1 [groupName]
           else removeConsent acc.1 [groupName]
  (r.1, acc.2 ++ r.2)

/-- `updateConsent`: iterates the keys of the grouped-features catalog
(not the input), reconciling each against membership in the input list
(`new Set(consent).has(groupName)`). -/
def updateConsent (s : MetricsState) (consent : List String) : MetricsState × List Call :=
  catalogKeys.foldl (updateStep consent) (s, [])

/-- The consent-relevant part of the constructor: an empty ledger and
`initDone = false`, then prior consent is loaded from the store and, when
non-empty, re-added through `addConsent`; finally `initDone` is set. -/
def construct (storageProvider : Option (List String)) : MetricsState × List Call :=
  let s0 : MetricsState :=
    { consentGranted := [], sessionStarted := false, initDone := false,
      storage := storageProvider }
  let existingConsent := getConsentStore s0
  let r := if existingConsent.length > 0 then addConsent s0 existingConsent else (s0, [])
  ({ r.1 with initDone := true }, r.2)

/-- `startSession(noHeartBeat, force)`: guarded by `sessionStarted`. -/
def startSession (s : MetricsState) (noHeartBeat force : Bool) : MetricsState × List Call :=
  if !s.sessionStarted then
    ({ s with sessionStarted := true }, [Call.beginSessionCall noHeartBeat force])
  else
    (s, [])

/-- `endSession(force)`: guarded by `sessionStarted`; `end_session` is
called with an undefined duration (not modelled) and `force`. -/
def endSession (s : MetricsState) (force : Bool) : MetricsState × List Call :=
  if s.sessionStarted then
    ({ s with sessionStarted := false }, [Call.endSessionCall force])
  else
    (s, [])

/-- A session-related public operation, for stating temporal properties. -/
inductive SessionOp where
  | startOp (noHeartBeat force : Bool)
  | endOp (force : Bool)
deriving DecidableEq, Repr

/-- Run a sequence of session operations, concatenating the call logs. -/
def runSession (s : MetricsState) : List SessionOp → MetricsState × List Call
  | [] => (s, [])
  | op :: rest =>
    let r := match op with
      | .startOp nh f => startSession s nh f
      | .endOp f => endSession s f
    let r' := runSession r.1 rest
    (r'.1, r.2 ++ r'.2)

/-- `alternatesB b calls` holds when the calls alternate between
begin-session (expected exactly when `b` is true) and non-begin calls. -/
def alternatesB : Bool → List Call → Bool
  | _, [] => true
  | b, c :: cs => (isBeginCall c == b) && alternatesB (!b) cs

/-! ### Helper lemmas about the JS-set operations -/

theorem mem_setAdd (s : List String) (x y : String) :
    y ∈ setAdd s x ↔ y ∈ s ∨ y = x := by
  unfold setAdd
  by_cases h : x ∈ s
  · simp only [if_pos h]
    constructor
    · exact Or.inl
    · rintro (hy | rfl)
      · exact hy
      · exact h
  · simp [if_neg h]

theorem mem_setDelete (s : List String) (x y : String) :
    y ∈ setDelete s x ↔ y ∈ s ∧ y ≠ x := by
  simp [setDelete, List.mem_filter]

theorem mem_foldl_setAdd (l : List String) :
    ∀ (s : List String) (y : String), y ∈ l.foldl setAdd s ↔ y ∈ s ∨ y ∈ l := by
  induction l with
  | nil => intro s y; simp
  | cons a l ih =>
    intro s y
    simp only [List.foldl_cons]
    rw [ih, mem_setAdd]
    simp only [List.mem_cons]
    tauto

theorem mem_foldl_setDelete (l : List String) :
    ∀ (s : List String) (y : String), y ∈ l.foldl setDelete s ↔ y ∈ s ∧ y ∉ l := by
  induction l with
  | nil => intro s y; simp
  | cons a l ih =>
    intro s y
    simp only [List.foldl_cons]
    rw [ih, mem_setDelete]
    simp only [List.mem_cons]
    tauto

/-! ### Helper lemmas about `setConsentStore`, `addConsent`, `removeConsent` -/

theorem setConsentStore_consentGranted (s : MetricsState) :
    (setConsentStore s).1.consentGranted = s.consentGranted := by
  unfold setConsentStore
  split <;> rfl

theorem setConsentStore_calls_not_consent (s : MetricsState) :
    (setConsentStore s).2.filter isConsentCall = [] := by
  unfold setConsentStore
  split <;> simp [isConsentCall]

theorem setConsentStore_none (s : MetricsState) (h : s.storage = none) :
    setConsentStore s = (s, []) := by
  unfold setConsentStore
  rw [h]
  rfl

theorem setConsentStore_active (s : MetricsState)
    (h1 : s.initDone = true) (h2 : s.storage.isSome = true) :
    setConsentStore s =
      ({ s with storage := some s.consentGranted }, [Call.setStoreCall s.consentGranted]) := by
  unfold setConsentStore
  rw [h1, h2]
  rfl

theorem addConsent_consentGranted (s : MetricsState) (l : List String) :
    (addConsent s l).1.consentGranted = l.foldl setAdd s.consentGranted := by
  dsimp only [addConsent]
  rw [setConsentStore_consentGranted]

theorem removeConsent_consentGranted (s : MetricsState) (l : List String) :
    (removeConsent s l).1.consentGranted = l.foldl setDelete s.consentGranted := by
  dsimp only [removeConsent]
  rw [setConsentStore_consentGranted]

theorem addConsent_calls_filter (s : MetricsState) (l : List String) :
    (addConsent s l).2.filter isConsentCall = [Call.addConsentCall l] := by
  dsimp only [addConsent]
  simp [List.filter_cons, isConsentCall, setConsentStore_calls_not_consent]

theorem removeConsent_calls_filter (s : MetricsState) (l : List String) :
    (removeConsent s l).2.filter isConsentCall = [Call.removeConsentCall l true] := by
  dsimp only [removeConsent]
  simp [List.filter_cons, isConsentCall, setConsentStore_calls_not_consent]

theorem addConsent_none (s : MetricsState) (l : List String) (h : s.storage = none) :
    addConsent s l =
      ({ s with consentGranted := l.foldl setAdd s.consentGranted },
       [Call.addConsentCall l]) := by
  dsimp only [addConsent]
  rw [setConsentStore_none _ (by exact h)]

theorem removeConsent_none (s : MetricsState) (l : List String) (h : s.storage = none) :
    removeConsent s l =
      ({ s with consentGranted := l.foldl setDelete s.consentGranted },
       [Call.removeConsentCall l true]) := by
  dsimp only [removeConsent]
  rw [setConsentStore_none _ (by exact h)]

theorem addConsent_active (s : MetricsState) (l : List String)
    (h1 : s.initDone = true) (h2 : s.storage.isSome = true) :
    addConsent s l =
      ({ s with consentGranted := l.foldl setAdd s.consentGranted,
                storage := some (l.foldl setAdd s.consentGranted) },
       [Call.addConsentCall l,
        Call.setStoreCall (l.foldl setAdd s.consentGranted)]) := by
  dsimp only [addConsent]
  rw [setConsentStore_active _ (by exact h1) (by exact h2)]

theorem removeConsent_active (s : MetricsState) (l : List String)
    (h1 : s.initDone = true) (h2 : s.storage.isSome = true) :
    removeConsent s l =
      ({ s with consentGranted := l.foldl setDelete s.consentGranted,
                storage := some (l.foldl setDelete s.consentGranted) },
       [Call.removeConsentCall l true,
        Call.setStoreCall (l.foldl setDelete s.consentGranted)]) := by
  dsimp only [removeConsent]
  rw [setConsentStore_active _ (by exact h1) (by exact h2)]

theorem callNames_eq_nil (c : Call) (h : isConsentCall c = false) : callNames c = [] := by
  cases c <;> simp_all [isConsentCall, callNames]

/-! ### Lemmas about the reconciliation loop of `updateConsent` -/

theorem updateStep_consentGranted (C : List String) (acc : MetricsState × List Call)
    (k : String) :
    (updateStep C acc k).1.consentGranted =
      if k ∈ C then setAdd acc.1.consentGranted k else setDelete acc.1.consentGranted k := by
  by_cases hk : k ∈ C
  · simp [updateStep, if_pos hk, addConsent_consentGranted, List.foldl]
  · simp [updateStep, if_neg hk, removeConsent_consentGranted, List.foldl]

theorem updateLoop_mem (C : List String) :
    ∀ (keys : List String) (acc : MetricsState × List Call) (x : String),
      x ∈ (keys.foldl (updateStep C) acc).1.consentGranted ↔
        ((x ∈ keys ∧ x ∈ C) ∨ (x ∈ acc.1.consentGranted ∧ (x ∉ keys ∨ x ∈ C))) := by
  intro keys
  induction keys with
  | nil =>
    intro acc x
    simp
  | cons k ks ih =>
    intro acc x
    simp only [List.foldl_cons]
    rw [ih]
    rw [updateStep_consentGranted]
    by_cases hk : k ∈ C
    · rw [if_pos hk, mem_setAdd]
      simp only [List.mem_cons]
      by_cases hxk : x = k
      · subst hxk
        tauto
      · tauto
    · rw [if_neg hk, mem_setDelete]
      simp only [List.mem_cons]
      by_cases hxk : x = k
      · subst hxk
        tauto
      · tauto

theorem updateLoop_calls (C : List String) :
    ∀ (keys : List String) (acc : MetricsState × List Call),
      (keys.foldl (updateStep C) acc).2.filter isConsentCall =
        acc.2.filter isConsentCall ++
          keys.map (fun k => if k ∈ C then Call.addConsentCall [k]
                             else Call.removeConsentCall [k] true) := by
  intro keys
  induction keys with
  | nil =>
    intro acc
    simp
  | cons k ks ih =>
    intro acc
    simp only [List.foldl_cons, List.map_cons]
    rw [ih]
    by_cases hk : k ∈ C
    · simp [updateStep, if_pos hk, List.filter_append, addConsent_calls_filter]
    · simp [updateStep, if_neg hk, List.filter_append, removeConsent_calls_filter]

theorem updateLoop_storage_none (C : List String) :
    ∀ (keys : List String) (acc : MetricsState × List Call), acc.1.storage = none →
      (keys.foldl (updateStep C) acc).1.storage = none ∧
      (keys.foldl (updateStep C) acc).2.filter isStoreCall = acc.2.filter isStoreCall := by
  intro keys
  induction keys with
  | nil =>
    intro acc h
    exact ⟨h, rfl⟩
  | cons k ks ih =>
    intro acc h
    simp only [List.foldl_cons]
    have hstep : (updateStep C acc k).1.storage = none ∧
        (updateStep C acc k).2.filter isStoreCall = acc.2.filter isStoreCall := by
      by_cases hk : k ∈ C
      · rw [updateStep, if_pos hk, addConsent_none _ _ h]
        exact ⟨h, by simp [List.filter_append, isStoreCall]⟩
      · rw [updateStep, if_neg hk, removeConsent_none _ _ h]
        exact ⟨h, by simp [List.filter_append, isStoreCall]⟩
    obtain ⟨h1, h2⟩ := hstep
    obtain ⟨h3, h4⟩ := ih (updateStep C acc k) h1
    exact ⟨h3, by rw [h4, h2]⟩

theorem updateLoop_congr (C C' : List String) :
    ∀ (keys : List String) (acc : MetricsState × List Call),
      (∀ k ∈ keys, (k ∈ C ↔ k ∈ C')) →
      keys.foldl (updateStep C) acc = keys.foldl (updateStep C') acc := by
  intro keys
  induction keys with
  | nil =>
    intro acc _
    rfl
  | cons k ks ih =>
    intro acc h
    simp only [List.foldl_cons]
    have hk : (k ∈ C) ↔ (k ∈ C') := h k (List.mem_cons_self k ks)
    have hstep : updateStep C acc k = updateStep C' acc k := by
      by_cases hkC : k ∈ C
      · rw [updateStep, updateStep, if_pos hkC, if_pos (hk.mp hkC)]
      · rw [updateStep, updateStep, if_neg hkC, if_neg (fun hc => hkC (hk.mpr hc))]
    rw [hstep]
    exact ih _ (fun a ha => h a (List.mem_cons_of_mem _ ha))

/-! ### Session alternation -/

theorem runSession_alternates :
    ∀ (ops : List SessionOp) (s : MetricsState),
      alternatesB (!s.sessionStarted) (runSession s ops).2 = true := by
  intro ops
  induction ops with
  | nil =>
    intro s
    rfl
  | cons op rest ih =>
    intro s
    cases op with
    | startOp nh f =>
      cases h : s.sessionStarted with
      | true => simpa [runSession, startSession, h] using ih s
      | false =>
        have hrest := ih { s with sessionStarted := true }
        simpa [runSession, startSession, h, alternatesB, isBeginCall] using hrest
    | endOp f =>
      cases h : s.sessionStarted with
      | false => simpa [runSession, endSession, h] using ih s
      | true =>
        have hrest := ih { s with sessionStarted := false }
        simpa [runSession, endSession, h, alternatesB, isBeginCall] using hrest

theorem lookupGroup_none_of_not_mem (x : String) (h : x ∉ catalogKeys) :
    lookupGroup x = none := by
  unfold lookupGroup
  have hfind : groupedFeatures.find? (fun p => p.1 == x) = none := by
    rw [List.find?_eq_none]
    intro p hp
    simp only [beq_iff_eq]
    intro hpx
    exact h (hpx ▸ List.mem_map_of_mem Prod.fst hp)
  rw [hfind]
  rfl

/-! ### Claim theorems -/

/-- C1: for every input list `C` and every state whose ledger holds only
catalog categories (the `consentTypes` typing of `_consentGranted`),
`updateConsent C` forwards, in catalog order, one `add_consent` for each
catalog key in `C` and one `remove_consent` for each catalog key not in
`C` (and no other consent call); afterwards the ledger holds exactly the
catalog keys present in `C`, and `updateConsent []` empties the ledger. -/
theorem updateConsent_full_reconciliation (s : MetricsState) (C : List String)
    (h : ∀ x ∈ s.consentGranted, x ∈ catalogKeys) :
    ((updateConsent s C).2.filter isConsentCall =
      catalogKeys.map (fun k => if k ∈ C then Call.addConsentCall [k]
                                else Call.removeConsentCall [k] true)) ∧
    (∀ x, x ∈ (updateConsent s C).1.consentGranted ↔ (x ∈ catalogKeys ∧ x ∈ C)) ∧
    (updateConsent s []).1.consentGranted = [] := by
  refine ⟨?_, ?_, ?_⟩
  · rw [updateConsent, updateLoop_calls]
    simp
  · intro x
    rw [updateConsent, updateLoop_mem]
    constructor
    · rintro (⟨h1, h2⟩ | ⟨h1, h2⟩)
      · exact ⟨h1, h2⟩
      · rcases h2 with h2 | h2
        · exact absurd (h x h1) h2
        · exact ⟨h x h1, h2⟩
    · rintro ⟨h1, h2⟩
      exact Or.inl ⟨h1, h2⟩
  · rw [List.eq_nil_iff_forall_not_mem]
    intro x hx
    rw [updateConsent, updateLoop_mem] at hx
    rcases hx with ⟨_, h2⟩ | ⟨h1, h2⟩
    · exact (List.not_mem_nil x) h2
    · rcases h2 with h2 | h2
      · exact h2 (h x h1)
      · exact (List.not_mem_nil x) h2

theorem updateConsent_full_reconciliation_witness :
    (∀ x ∈ (construct none).1.consentGranted, x ∈ catalogKeys) ∧
    (updateConsent (construct none).1 []).1.consentGranted = [] :=
  ⟨by decide,
   (updateConsent_full_reconciliation (construct none).1 ["minimal"] (by decide)).2.2⟩

/-- C2 (counterexample): after the public operation sequence "construct
with no storage, then `updateConsent(['all'])`", the ledger contains the
literal element `all`, refuting the claimed invariant that `all` is
always expanded into member categories before being stored. -/
theorem all_literal_counterexample :
    "all" ∈ (updateConsent (construct none).1 ["all"]).1.consentGranted := by
  decide

/-- C2 (amended): `all` is not expanded; whenever `all` is in the input
of `updateConsent` the literal element `all` is stored in the ledger, and
`addConsent` on `['all']` inserts exactly the literal `all`. -/
theorem all_stored_literally (s : MetricsState) (C : List String) (h : "all" ∈ C) :
    "all" ∈ (updateConsent s C).1.consentGranted ∧
    ∀ s', (addConsent s' ["all"]).1.consentGranted = setAdd s'.consentGranted "all" := by
  constructor
  · rw [updateConsent, updateLoop_mem]
    exact Or.inl ⟨by decide, h⟩
  · intro s'
    rw [addConsent_consentGranted]
    rfl

theorem all_stored_literally_witness :
    ("all" ∈ ["all"]) ∧
    "all" ∈ (updateConsent (construct (some [])).1 ["all"]).1.consentGranted :=
  ⟨by decide, (all_stored_literally (construct (some [])).1 ["all"] (by decide)).1⟩

/-- C3: with construction finished (`initDone`) and a storage provider
present, `addConsent` and `removeConsent` each issue exactly their
service consent call followed by one `setStore` of the full new ledger,
after which storage equals the ledger; and constructing with persisted
`["performance"]` yields the ledger `["performance"]` with zero
`setStore` calls. -/
theorem mutation_mirrors_storage (s : MetricsState) (l : List String)
    (h1 : s.initDone = true) (h2 : s.storage.isSome = true) :
    ((addConsent s l).1.storage = some (addConsent s l).1.consentGranted ∧
     (addConsent s l).2 =
       [Call.addConsentCall l, Call.setStoreCall (addConsent s l).1.consentGranted] ∧
     (removeConsent s l).1.storage = some (removeConsent s l).1.consentGranted ∧
     (removeConsent s l).2 =
       [Call.removeConsentCall l true,
        Call.setStoreCall (removeConsent s l).1.consentGranted]) ∧
    ((construct (some ["performance"])).1.consentGranted = ["performance"] ∧
     (construct (some ["performance"])).2.filter isStoreCall = []) := by
  refine ⟨⟨?_, ?_, ?_, ?_⟩, by decide, by decide⟩
  · rw [addConsent_active s l h1 h2]
  · rw [addConsent_active s l h1 h2]
  · rw [removeConsent_active s l h1 h2]
  · rw [removeConsent_active s l h1 h2]

theorem mutation_mirrors_storage_witness :
    ((construct (some ["performance"])).1.initDone = true ∧
     (construct (some ["performance"])).1.storage.isSome = true) ∧
    (addConsent (construct (some ["performance"])).1 ["ux"]).1.storage =
      some (addConsent (construct (some ["performance"])).1 ["ux"]).1.consentGranted :=
  ⟨⟨by decide, by decide⟩,
   ((mutation_mirrors_storage (construct (some ["performance"])).1 ["ux"]
      (by decide) (by decide)).1).1⟩

/-- C4: from an inactive session state, two consecutive `startSession`
calls issue exactly one `begin_session` to the service, and `endSession`
before any `startSession` issues zero `end_session` calls. -/
theorem session_idempotence (s : MetricsState) (nh1 f1 nh2 f2 f3 : Bool)
    (h : s.sessionStarted = false) :
    (startSession s nh1 f1).2 ++ (startSession (startSession s nh1 f1).1 nh2 f2).2 =
      [Call.beginSessionCall nh1 f1] ∧
    (endSession s f3).2 = [] := by
  constructor
  · simp [startSession, h]
  · simp [endSession, h]

theorem session_idempotence_witness :
    (construct none).1.sessionStarted = false ∧
    (endSession (construct none).1 false).2 = [] :=
  ⟨by decide,
   (session_idempotence (construct none).1 false false false false false (by decide)).2⟩

/-- C5: `checkConsent` of a grouped-features key is the AND of the
service's `check_consent` over that key's member flags (true iff every
member flag is granted, and false as soon as one member flag is off),
while any other argument is delegated directly to `check_consent`;
concretely, `checkConsent 'minimal'` is the conjunction over
`sessions`, `views`, `events`. -/
theorem checkConsent_group_and (svc : String → Bool) :
    (∀ x, x ∉ catalogKeys → checkConsent svc x = svc x) ∧
    (∀ k flags, lookupGroup k = some flags →
      checkConsent svc k = flags.all svc ∧
      (checkConsent svc k = true ↔ ∀ f ∈ flags, svc f = true)) ∧
    (∀ k flags f, lookupGroup k = some flags → f ∈ flags → svc f = false →
      checkConsent svc k = false) ∧
    (checkConsent svc "minimal" = (svc "sessions" && svc "views" && svc "events")) := by
  refine ⟨?_, ?_, ?_, ?_⟩
  · intro x hx
    unfold checkConsent
    rw [lookupGroup_none_of_not_mem x hx]
  · intro k flags hlk
    have hck : checkConsent svc k = flags.all svc := by
      unfold checkConsent
      rw [hlk]
    refine ⟨hck, ?_⟩
    rw [hck]
    exact List.all_eq_true
  · intro k flags f hlk hf hsvc
    have hck : checkConsent svc k = flags.all svc := by
      unfold checkConsent
      rw [hlk]
    rw [hck]
    cases hall : flags.all svc with
    | false => rfl
    | true => exact absurd (List.all_eq_true.mp hall f hf) (by simp [hsvc])
  · have hmin : checkConsent svc "minimal" = ["sessions", "views", "events"].all svc := rfl
    rw [hmin]
    simp [List.all_cons, List.all_nil, Bool.and_assoc]

theorem checkConsent_group_and_witness :
    (lookupGroup "minimal" = some ["sessions", "views", "events"]) ∧
    (("views" : String) ∈ ["sessions", "views", "events"]) ∧
    ((fun f => !(f == "views")) "views" = false) ∧
    checkConsent (fun f => !(f == "views")) "minimal" = false :=
  ⟨by decide, by decide, by decide,
   (checkConsent_group_and (fun f => !(f == "views"))).2.2.1 "minimal"
     ["sessions", "views", "events"] "views" (by decide) (by decide) (by decide)⟩

/-- C6: for every input mapping without an `all` key, `mapAllEvents`
returns the input unchanged with a single `all` entry appended whose flag
list is the order-preserving flattened concatenation of all the input
flag lists; on the source's concrete catalog, `all` maps to the eleven
flags in first-appearance order. -/
theorem mapAllEvents_appends_all (m : List (String × List String))
    (h : ∀ p ∈ m, p.1 ≠ "all") :
    (mapAllEvents m = m ++ [("all", (m.map Prod.snd).flatten)]) ∧
    lookupGroup "all" = some ["sessions", "views", "events", "crashes", "apm",
      "scrolls", "clicks", "forms", "star-rating", "feedback", "location"] := by
  refine ⟨?_, by decide⟩
  have hc : m.any (fun p => p.1 == "all") = false := by
    rw [List.any_eq_false]
    intro p hp
    simpa using h p hp
  simp [mapAllEvents, hc]

theorem mapAllEvents_appends_all_witness :
    mapAllEvents [("a", ["x", "y"]), ("b", ["z"])] =
      [("a", ["x", "y"]), ("b", ["z"])] ++ [("all", ["x", "y", "z"])] :=
  (mapAllEvents_appends_all [("a", ["x", "y"]), ("b", ["z"])] (by decide)).1

/-- C7: `removeConsent` deletes each given category from the ledger set
(membership afterwards is membership before minus the given names) and
its service consent traffic is exactly one `remove_consent` carrying the
given categories with the remove-descendants flag `true`; likewise for a
single category, which the source wraps into a one-element list. -/
theorem removeConsent_spec (s : MetricsState) (l : List String) (x c : String) :
    (x ∈ (removeConsent s l).1.consentGranted ↔ (x ∈ s.consentGranted ∧ x ∉ l)) ∧
    (removeConsent s l).2.filter isConsentCall = [Call.removeConsentCall l true] ∧
    (removeConsent s [c]).2.filter isConsentCall = [Call.removeConsentCall [c] true] := by
  refine ⟨?_, removeConsent_calls_filter s l, removeConsent_calls_filter s [c]⟩
  rw [removeConsent_consentGranted, mem_foldl_setDelete]

/-- C8: with no storage provider, reading the consent store yields the
empty list, construction restores nothing and issues no calls at all,
and `addConsent`, `removeConsent` and `updateConsent` never write to
storage (and leave the provider absent), completing normally. -/
theorem no_storage_noop (s : MetricsState) (h : s.storage = none) :
    getConsentStore s = [] ∧
    construct none = ({ consentGranted := [], sessionStarted := false, initDone := true, storage := none }, []) ∧
    (∀ l, (addConsent s l).2.filter isStoreCall = [] ∧
      (addConsent s l).1.storage = none) ∧
    (∀ l, (removeConsent s l).2.filter isStoreCall = [] ∧
      (removeConsent s l).1.storage = none) ∧
    (∀ C, (updateConsent s C).2.filter isStoreCall = [] ∧
      (updateConsent s C).1.storage = none) := by
  refine ⟨?_, by decide, ?_, ?_, ?_⟩
  · simp [getConsentStore, h]
  · intro l
    rw [addConsent_none s l h]
    exact ⟨by simp [isStoreCall], h⟩
  · intro l
    rw [removeConsent_none s l h]
    exact ⟨by simp [isStoreCall], h⟩
  · intro C
    have hloop := updateLoop_storage_none C catalogKeys (s, []) (by exact h)
    exact ⟨by simpa using hloop.2, hloop.1⟩

theorem no_storage_noop_witness :
    (construct none).1.storage = none ∧
    getConsentStore (construct none).1 = [] :=
  ⟨by decide, (no_storage_noop (construct none).1 (by decide)).1⟩

/-- C9: `updateConsent` only ever adds catalog keys to the ledger, only
ever forwards catalog keys to the service's `add_consent` /
`remove_consent`, and is unchanged by dropping the non-catalog entries of
its input: the input is used only for membership tests. -/
theorem updateConsent_ignores_unknown (s : MetricsState) (C : List String) :
    (∀ x, x ∈ (updateConsent s C).1.consentGranted →
      x ∈ catalogKeys ∨ x ∈ s.consentGranted) ∧
    (∀ c ∈ (updateConsent s C).2, ∀ x ∈ callNames c, x ∈ catalogKeys) ∧
    updateConsent s C = updateConsent s (C.filter (fun x => decide (x ∈ catalogKeys))) := by
  refine ⟨?_, ?_, ?_⟩
  · intro x hx
    rw [updateConsent, updateLoop_mem] at hx
    rcases hx with ⟨h1, _⟩ | ⟨h1, _⟩
    · exact Or.inl h1
    · exact Or.inr h1
  · intro c hc x hx
    cases hcc : isConsentCall c with
    | false =>
      rw [callNames_eq_nil c hcc] at hx
      exact absurd hx (List.not_mem_nil x)
    | true =>
      have hcf : c ∈ (updateConsent s C).2.filter isConsentCall :=
        List.mem_filter.mpr ⟨hc, hcc⟩
      rw [updateConsent, updateLoop_calls] at hcf
      simp only [List.filter_nil, List.nil_append, List.mem_map] at hcf
      obtain ⟨k, hk, hck⟩ := hcf
      rw [← hck] at hx
      by_cases hkC : k ∈ C
      · rw [if_pos hkC] at hx
        simp only [callNames, List.mem_singleton] at hx
        exact hx ▸ hk
      · rw [if_neg hkC] at hx
        simp only [callNames, List.mem_singleton] at hx
        exact hx ▸ hk
  · rw [updateConsent, updateConsent]
    apply updateLoop_congr
    intro k hk
    simp [List.mem_filter, hk]

theorem updateConsent_ignores_unknown_witness :
    updateConsent (construct none).1 ["location", "bogus"] =
      updateConsent (construct none).1
        (["location", "bogus"].filter (fun x => decide (x ∈ catalogKeys))) :=
  (updateConsent_ignores_unknown (construct none).1 ["location", "bogus"]).2.2

/-- C10: from an inactive session state, the `begin_session` and
`end_session` calls produced by any sequence of `startSession` /
`endSession` operations strictly alternate starting with
`begin_session`; and a start–end–start sequence produces exactly
begin, end, begin (so `endSession` re-arms the guard). -/
theorem session_calls_alternate (s : MetricsState) (ops : List SessionOp)
    (nh f f2 nh2 f3 : Bool) (h : s.sessionStarted = false) :
    alternatesB true (runSession s ops).2 = true ∧
    (runSession s [SessionOp.startOp nh f, SessionOp.endOp f2,
      SessionOp.startOp nh2 f3]).2 =
      [Call.beginSessionCall nh f, Call.endSessionCall f2,
       Call.beginSessionCall nh2 f3] := by
  constructor
  · simpa [h] using runSession_alternates ops s
  · simp [runSession, startSession, endSession, h]

theorem session_calls_alternate_witness :
    (construct none).1.sessionStarted = false ∧
    alternatesB true (runSession (construct none).1
      [SessionOp.startOp false false, SessionOp.startOp true true,
       SessionOp.endOp false, SessionOp.endOp true, SessionOp.startOp false true]).2 = true :=
  ⟨by decide,
   (session_calls_alternate (construct none).1
      [SessionOp.startOp false false, SessionOp.startOp true true,
       SessionOp.endOp false, SessionOp.endOp true, SessionOp.startOp false true]
      false false false false false (by decide)).1⟩

end MetricsProvider
